import Mathlib

/-!
Verification development for the uplog-rs logging pipeline.

Each section shallowly embeds one part of the Rust source
(`src/uplog`, `src/server`, `src/tools`) as executable Lean
definitions, and proves (or refutes) the specified properties
about them.  Machine integers are modelled as `Nat`/`Int` with
explicit bounds; fallible Rust code (`Result`, `Option::unwrap`,
panics) is modelled with `Option`/`Except`/paired results, where
`none` / an error value stands for the panic or error path.
Floating-point values (`Value::F32`/`Value::F64`) are outside the
model; every definition touching the `Value` type embeds the
float-free fragment of the Rust enum.
-/

namespace Uplog

/-! ## Double buffer (src/uplog/src/buffer.rs)

`SwapBufWriter` is a `Vec<u8>` with fixed capacity; `SwapBufReader`
is a `Vec<u8>` plus a read cursor.  We model byte vectors as
`List Nat` (each element a byte value) and the capacity as the
vector's allocated capacity, which never changes after construction
(`write` never grows the vector, `swap` exchanges two vectors
allocated with the same capacity). -/

/-- Model of `SwapBufWriter`: the logical contents `buf` of the
`Vec<u8>` plus its allocated capacity `cap`. -/
structure SwapBufWriterM where
  cap : Nat
  buf : List Nat
  deriving Repr, DecidableEq

/-- `SwapBufWriter::spare_capacity_write`: `capacity - len`. -/
def spareCapacityWrite (w : SwapBufWriterM) : Nat :=
  w.cap - w.buf.length

/-- `<SwapBufWriter as Write>::write` (buffer.rs:92-107).
If `buf.len() > spare_capacity_write()` it returns an
`ErrorKind::OutOfMemory` error (`BufferFull`) and leaves the buffer
untouched; otherwise it copies all the bytes in one shot and
returns `Ok(buf.len())`.  The result is the returned value
(`none` = the `BufferFull` error) paired with the writer state
after the call. -/
def swapBufWrite (w : SwapBufWriterM) (b : List Nat) : Option Nat × SwapBufWriterM :=
  if b.length > spareCapacityWrite w then
    (none, w)
  else
    (some b.length, { w with buf := w.buf ++ b })

/-- Model of `SwapBufReader`: the vector contents and the read cursor. -/
structure SwapBufReaderM where
  buf : List Nat
  readCursor : Nat
  deriving Repr, DecidableEq

/-- `SwapBufReader::residual_length_read`: `buf.len() - read_cursor`. -/
def residualLengthRead (r : SwapBufReaderM) : Nat :=
  r.buf.length - r.readCursor

/-- `<SwapBufReader as Read>::read` (buffer.rs:44-52) into a
destination of length `n`: returns 0 bytes when the residual length
is below 1 (EOF), otherwise copies `min(residual, n)` bytes starting
at the cursor and advances the cursor.  The result is the reader
state after the call paired with the bytes delivered. -/
def swapBufRead (r : SwapBufReaderM) (n : Nat) : SwapBufReaderM × List Nat :=
  if residualLengthRead r < 1 then
    (r, [])
  else
    let k := min (residualLengthRead r) n
    ({ r with readCursor := r.readCursor + k }, (r.buf.drop r.readCursor).take k)

/-- Model of `SwapBuffer`: the two sides plus the construction
capacity (both vectors are allocated with the same capacity). -/
structure SwapBufferM where
  cap : Nat
  read : SwapBufReaderM
  write : SwapBufWriterM
  deriving Repr, DecidableEq

/-- `SwapBuffer::new(capacity)`. -/
def swapBufferNew (cap : Nat) : SwapBufferM :=
  ⟨cap, ⟨[], 0⟩, ⟨cap, []⟩⟩

/-- `SwapBuffer::swap` (buffer.rs:134-151): exchanges the two
vectors, then `rb.swap_reset()` sets the new read cursor to 0 and
`wb.swap_reset()` sets the new write vector's length to 0
(discarding its contents — the old read-side bytes).  Returns the
new state paired with `rb.buf.len()`, the number of readable bytes. -/
def swapBufferSwap (s : SwapBufferM) : SwapBufferM × Nat :=
  (⟨s.cap, ⟨s.write.buf, 0⟩, ⟨s.write.cap, []⟩⟩, s.write.buf.length)

/-- Bytes written to the read side but not yet read:
`buf[read_cursor..]`. -/
def pendingBytes (s : SwapBufferM) : List Nat :=
  s.read.buf.drop s.read.readCursor

/-! ### Producer/consumer traces over the double buffer

To reason about which bytes the buffer can lose or duplicate we run
explicit operation traces: each step is a producer `write`, a
transport `read` into a destination of a given size, or a transport
`swap`, exactly as exposed by `SwapBuffer`.  The trace accumulates
the bytes successfully submitted by writes and the bytes delivered
by reads, plus a flag recording whether every `swap` so far found
the read side fully drained. -/

inductive BufOp where
  | write (l : List Nat)
  | read (n : Nat)
  | swap
  deriving Repr, DecidableEq

structure BufTrace where
  st : SwapBufferM
  submitted : List Nat
  delivered : List Nat
  swapsDrained : Bool
  deriving Repr, DecidableEq

def bufTraceInit (cap : Nat) : BufTrace :=
  ⟨swapBufferNew cap, [], [], true⟩

def bufStep (t : BufTrace) : BufOp → BufTrace
  | .write l =>
    match swapBufWrite t.st.write l with
    | (some _, w') => { t with st := { t.st with write := w' }, submitted := t.submitted ++ l }
    | (none, _) => t
  | .read n =>
    let (r', d) := swapBufRead t.st.read n
    { t with st := { t.st with read := r' }, delivered := t.delivered ++ d }
  | .swap =>
    { t with
      st := (swapBufferSwap t.st).1,
      swapsDrained := t.swapsDrained && decide (pendingBytes t.st = []) }

def bufRun (cap : Nat) (ops : List BufOp) : BufTrace :=
  ops.foldl bufStep (bufTraceInit cap)

/-- `LogClient::log` (client.rs:261-264): encodes the record into the
write side via `serde_cbor::to_writer(..).unwrap()`.  When the encoded
bytes fit in the spare capacity every underlying `write` succeeds and
the bytes are appended; when they do not fit, some underlying `write`
fails with the `BufferFull` error and the `.unwrap()` panics, modelled
as `none`.  `encoded` stands for the CBOR encoding of the record. -/
def logClientLog (w : SwapBufWriterM) (encoded : List Nat) : Option SwapBufWriterM :=
  match swapBufWrite w encoded with
  | (some _, w') => some w'
  | (none, _) => none

/-! ### Trace invariant for the double buffer -/

/-- Invariant carried along every buffer trace: the bytes already
delivered, followed by the bytes pending on the read side, followed by
the bytes sitting on the write side, form a sublist of the submitted
bytes (order preserved, nothing invented or duplicated); and when every
swap so far found the read side drained, that sublist is the whole
submitted sequence (nothing lost). -/
def bufInv (t : BufTrace) : Prop :=
  (t.delivered ++ pendingBytes t.st ++ t.st.write.buf).Sublist t.submitted
  ∧ (t.swapsDrained = true →
      t.delivered ++ pendingBytes t.st ++ t.st.write.buf = t.submitted)

lemma pendingBytes_setWrite (s : SwapBufferM) (w : SwapBufWriterM) :
    pendingBytes { s with write := w } = pendingBytes s := rfl

lemma bufStep_inv (t : BufTrace) (op : BufOp) (h : bufInv t) : bufInv (bufStep t op) := by
  obtain ⟨h1, h2⟩ := h
  cases op with
  | write l =>
    by_cases hc : l.length > spareCapacityWrite t.st.write
    · simp only [bufStep, swapBufWrite, if_pos hc]
      exact ⟨h1, h2⟩
    · simp only [bufStep, swapBufWrite, if_neg hc]
      constructor
      · simp only [pendingBytes_setWrite]
        have hx := h1.append_right l
        have he : t.delivered ++ pendingBytes t.st ++ t.st.write.buf ++ l
            = t.delivered ++ pendingBytes t.st ++ (t.st.write.buf ++ l) := by
          simp [List.append_assoc]
        rw [he] at hx
        exact hx
      · intro hf
        simp only [pendingBytes_setWrite]
        have hx := h2 hf
        rw [← hx]
        simp [List.append_assoc]
  | read n =>
    by_cases hEOF : residualLengthRead t.st.read < 1
    · simp only [bufStep, swapBufRead, if_pos hEOF]
      constructor
      · simpa using h1
      · intro hf
        simpa using h2 hf
    · simp only [bufStep, swapBufRead, if_neg hEOF, bufInv, pendingBytes]
      have hsplit :
          (t.st.read.buf.drop t.st.read.readCursor).take (min (residualLengthRead t.st.read) n)
            ++ t.st.read.buf.drop
                (t.st.read.readCursor + min (residualLengthRead t.st.read) n)
            = t.st.read.buf.drop t.st.read.readCursor := by
        have hdd : t.st.read.buf.drop
              (t.st.read.readCursor + min (residualLengthRead t.st.read) n)
            = (t.st.read.buf.drop t.st.read.readCursor).drop
                (min (residualLengthRead t.st.read) n) := by
          rw [List.drop_drop, Nat.add_comm]
        rw [hdd, List.take_append_drop]
      have h0 : t.delivered
            ++ (t.st.read.buf.drop t.st.read.readCursor).take
                (min (residualLengthRead t.st.read) n)
            ++ t.st.read.buf.drop
                (t.st.read.readCursor + min (residualLengthRead t.st.read) n)
          = t.delivered ++ pendingBytes t.st := by
        rw [List.append_assoc, hsplit]
        rfl
      constructor
      · rw [h0]
        exact h1
      · intro hf
        rw [h0]
        exact h2 hf
  | swap =>
    constructor
    · simp only [bufStep, swapBufferSwap, pendingBytes, List.drop_zero, List.append_nil]
      have hsub : List.Sublist (t.delivered ++ t.st.write.buf)
          (t.delivered ++ (pendingBytes t.st ++ t.st.write.buf)) :=
        (List.sublist_append_right _ _).append_left t.delivered
      have h1' : List.Sublist (t.delivered ++ (pendingBytes t.st ++ t.st.write.buf))
          t.submitted := by
        rw [← List.append_assoc]
        exact h1
      exact hsub.trans h1'
    · intro hf
      simp only [bufStep] at hf
      rw [Bool.and_eq_true, decide_eq_true_eq] at hf
      obtain ⟨hf1, hf2⟩ := hf
      have hx := h2 hf1
      rw [hf2] at hx
      simp only [bufStep, swapBufferSwap, pendingBytes, List.drop_zero, List.append_nil]
      simpa using hx

lemma bufRun_inv_aux : ∀ (ops : List BufOp) (t : BufTrace),
    bufInv t → bufInv (ops.foldl bufStep t) := by
  intro ops
  induction ops with
  | nil => intro t h; exact h
  | cons op rest ih =>
    intro t h
    exact ih (bufStep t op) (bufStep_inv t op h)

lemma bufRun_inv (cap : Nat) (ops : List BufOp) : bufInv (bufRun cap ops) := by
  apply bufRun_inv_aux
  constructor
  · simp [bufTraceInit, pendingBytes, swapBufferNew]
  · intro _
    simp [bufTraceInit, pendingBytes, swapBufferNew]

/-! ### Claim C7 -/

/-- C7: for every byte sequence `b` and every write-side buffer state,
`write(b)` appends all of `b` exactly when `len(b)` is at most the
spare capacity — so writing exactly `capacity` bytes into an empty
buffer succeeds — and otherwise returns a `BufferFull` error while
leaving the buffer contents and logical length unchanged (no partial
write). -/
theorem write_all_or_nothing : ∀ (w : SwapBufWriterM) (b : List Nat),
    ((swapBufWrite w b).1.isSome ↔ b.length ≤ spareCapacityWrite w)
    ∧ (b.length ≤ spareCapacityWrite w →
        swapBufWrite w b = (some b.length, { w with buf := w.buf ++ b }))
    ∧ (spareCapacityWrite w < b.length → swapBufWrite w b = (none, w)) := by
  intro w b
  by_cases hc : b.length > spareCapacityWrite w
  · simp only [swapBufWrite, if_pos hc]
    refine ⟨by simp; omega, fun hle => absurd hle (by omega), fun _ => trivial⟩
  · simp only [swapBufWrite, if_neg hc]
    refine ⟨by simp; omega, fun _ => trivial, fun hlt => absurd hlt (by omega)⟩

/-- Witness for C7 at the capacity boundary: writing exactly
`capacity` bytes into an empty buffer of capacity 2 succeeds and
appends them; writing `capacity + 1` bytes fails and leaves the
buffer unchanged. -/
theorem write_all_or_nothing_witness :
    swapBufWrite ⟨2, []⟩ [7, 8] = (some 2, ⟨2, [7, 8]⟩)
    ∧ swapBufWrite ⟨2, []⟩ [7, 8, 9] = (none, ⟨2, []⟩) :=
  ⟨(write_all_or_nothing ⟨2, []⟩ [7, 8]).2.1 (by decide),
   (write_all_or_nothing ⟨2, []⟩ [7, 8, 9]).2.2 (by decide)⟩

/-! ### Claim C1 -/

/-- C1, counterexample: the claim says that when the encoded record
does not fit in the write side's spare capacity the facade drops the
record silently and returns control normally to the caller, for every
record and every buffer state.  In the code, `LogClient::log` calls
`serde_cbor::to_writer(..).unwrap()`, so a `BufferFull` write error
panics the producing call site (`none` in the model).  Concretely: a
3-byte encoded record against an empty buffer of capacity 2 panics
instead of returning normally. -/
theorem log_bufferfull_cex : logClientLog ⟨2, []⟩ [1, 2, 3] = none := by decide

/-- C1, amended: `LogClient::log` returns control normally exactly
when the encoded record fits in the write side's spare capacity (in
which case the bytes are appended); when the record does not fit, the
`BufferFull` error is not absorbed — the `unwrap` panics the
producing call site (and the facade maintains no drop counter). -/
theorem log_returns_iff_fits : ∀ (w : SwapBufWriterM) (encoded : List Nat),
    ((logClientLog w encoded).isSome ↔ encoded.length ≤ spareCapacityWrite w)
    ∧ (encoded.length ≤ spareCapacityWrite w →
        logClientLog w encoded = some { w with buf := w.buf ++ encoded }) := by
  intro w b
  by_cases hc : b.length > spareCapacityWrite w
  · simp only [logClientLog, swapBufWrite, if_pos hc]
    exact ⟨by simp; omega, fun hle => absurd hle (by omega)⟩
  · simp only [logClientLog, swapBufWrite, if_neg hc]
    exact ⟨by simp; omega, fun _ => trivial⟩

/-- Witness for C1's amended claim: a 2-byte record fits in an empty
capacity-2 buffer and is appended. -/
theorem log_returns_iff_fits_witness :
    logClientLog ⟨2, []⟩ [1, 2] = some ⟨2, [1, 2]⟩ :=
  (log_returns_iff_fits ⟨2, []⟩ [1, 2]).2 (by decide)

/-! ### Claim C2 -/

/-- C2, counterexample: the claim says that for every reachable state
— including states in which the read side still holds bytes that were
never read — `swap()` preserves every byte that was fully written and
not yet read.  Reachable trace refuting it: write byte 42, swap
(42 moves to the read side, still unread), swap again.  The second
`swap` makes the old read side the new write side and resets its
length to 0: byte 42 was fully written and never read, yet afterwards
it is visible neither on the read side nor on the write side. -/
theorem swap_discards_unread_cex :
    (bufRun 4 [.write [42], .swap, .swap]).submitted = [42]
    ∧ (bufRun 4 [.write [42], .swap, .swap]).delivered = []
    ∧ pendingBytes (bufRun 4 [.write [42], .swap, .swap]).st = []
    ∧ (bufRun 4 [.write [42], .swap, .swap]).st.write.buf = [] := by decide

/-- C2, amended: `swap()` makes exactly the bytes written to the write
side since the previous swap visible (unread) on the read side and
resets the write side to empty; along any operation trace the
delivered bytes form a sublist of the submitted bytes (no byte already
read is ever delivered again, and order is preserved); and provided
every swap found the read side fully drained, no fully-written byte is
lost: delivered + still-pending + still-buffered bytes equal the
submitted bytes exactly.  Bytes still unread on the read side when
`swap()` is called are discarded, which is the only deviation from the
original claim. -/
theorem swap_preserves_amended :
    (∀ s : SwapBufferM,
        pendingBytes (swapBufferSwap s).1 = s.write.buf
        ∧ (swapBufferSwap s).1.write.buf = []
        ∧ (swapBufferSwap s).2 = s.write.buf.length)
    ∧ (∀ (cap : Nat) (ops : List BufOp),
        List.Sublist (bufRun cap ops).delivered (bufRun cap ops).submitted)
    ∧ (∀ (cap : Nat) (ops : List BufOp),
        (bufRun cap ops).swapsDrained = true →
          (bufRun cap ops).delivered ++ pendingBytes (bufRun cap ops).st
            ++ (bufRun cap ops).st.write.buf = (bufRun cap ops).submitted) := by
  refine ⟨fun s => ⟨rfl, rfl, rfl⟩, fun cap ops => ?_, fun cap ops hf => ?_⟩
  · have h := (bufRun_inv cap ops).1
    have hd : List.Sublist (bufRun cap ops).delivered
        ((bufRun cap ops).delivered
          ++ (pendingBytes (bufRun cap ops).st ++ (bufRun cap ops).st.write.buf)) :=
      List.sublist_append_left _ _
    rw [← List.append_assoc] at hd
    exact hd.trans h
  · exact (bufRun_inv cap ops).2 hf

/-- Witness for C2's amended claim on a concrete drained trace:
write [1,2]; swap; drain; write [3]; swap; drain — every swap found
the read side drained and every submitted byte is accounted for. -/
theorem swap_preserves_amended_witness :
    (bufRun 8 [.write [1, 2], .swap, .read 8, .write [3], .swap, .read 8]).delivered
      ++ pendingBytes (bufRun 8 [.write [1, 2], .swap, .read 8, .write [3], .swap, .read 8]).st
      ++ (bufRun 8 [.write [1, 2], .swap, .read 8, .write [3], .swap, .read 8]).st.write.buf
    = (bufRun 8 [.write [1, 2], .swap, .read 8, .write [3], .swap, .read 8]).submitted :=
  swap_preserves_amended.2.2 8 [.write [1, 2], .swap, .read 8, .write [3], .swap, .read 8]
    (by decide)

/-! ## Log levels (src/uplog/src/lib.rs:24-33) -/

/-- `uplog::Level`, the ordered level enumeration. -/
inductive Level where
  | trace
  | debug
  | info
  | warn
  | error
  deriving Repr, DecidableEq

/-! ## Process-global logger state
(src/uplog/src/logger.rs, src/uplog/src/session.rs, src/uplog/src/lib.rs)

The crate keeps three process-global statics: `LOGGER` (a `&dyn Log`
defaulting to `NopLogger`), `HANDLE` (the transport thread's
`JoinHandle`, defaulting to `None`), and `SESSION` (the session clock,
defaulting to `None`).  We model them as one explicit state record.
`Instant`s are modelled as `Nat` time stamps; a `JoinHandle` by a
numeric id. -/

/-- The installed global sink: `NopLogger` (logger.rs:17-26) or a
`LogClient` (client.rs:226-270) holding the buffer's write side. -/
inductive GlobalLog where
  | nop
  | client (writer : SwapBufWriterM)
  deriving Repr, DecidableEq

/-- The process-global statics `LOGGER`, `HANDLE` and `SESSION`. -/
structure ProcessState where
  logger : GlobalLog
  handle : Option Nat
  session : Option Nat
  deriving Repr, DecidableEq

/-- The state of a fresh process: `LOGGER = &NopLogger`,
`HANDLE = None`, `SESSION = None`. -/
def processInit : ProcessState := ⟨.nop, none, none⟩

/-- `session_init` (session.rs:27-33): `Once::call_once` — the first
call stores the current instant, later calls are no-ops. -/
def sessionInit (st : ProcessState) (now : Nat) : ProcessState :=
  match st.session with
  | some _ => st
  | none => { st with session := some now }

/-- `session::elapsed` (session.rs:35-37):
`SESSION.as_ref().unwrap().instant.elapsed()` — `none` models the
panic of `Option::unwrap` when the session was never initialized. -/
def sessionElapsed (st : ProcessState) (now : Nat) : Option Nat :=
  st.session.map (fun s => now - s)

/-- `__log_api` (lib.rs:317-339): builds a `RecordBorrow` whose
`elapsed` field calls `session::elapsed()` (which panics when the
session clock is uninitialized), then hands it to `logger().log`.
`NopLogger::log` does nothing; `LogClient::log` encodes into the
buffer (and panics on `BufferFull`, see `logClientLog`).  `encoded`
stands for the CBOR bytes of the built record. -/
def logApi (st : ProcessState) (_lv : Level) (encoded : List Nat) (now : Nat) :
    Option ProcessState :=
  match sessionElapsed st now with
  | none => none
  | some _ =>
    match st.logger with
    | .nop => some st
    | .client w => (logClientLog w encoded).map fun w' => { st with logger := .client w' }

/-- The per-level macros (macros.rs) are sugar over `log!`, which
expands to `__log_api` with the corresponding `Level` constant. -/
def errorEntry (st : ProcessState) (encoded : List Nat) (now : Nat) : Option ProcessState :=
  logApi st .error encoded now

def warnEntry (st : ProcessState) (encoded : List Nat) (now : Nat) : Option ProcessState :=
  logApi st .warn encoded now

def infoEntry (st : ProcessState) (encoded : List Nat) (now : Nat) : Option ProcessState :=
  logApi st .info encoded now

def debugEntry (st : ProcessState) (encoded : List Nat) (now : Nat) : Option ProcessState :=
  logApi st .debug encoded now

def traceEntry (st : ProcessState) (encoded : List Nat) (now : Nat) : Option ProcessState :=
  logApi st .trace encoded now

/-! ### Claim C4 -/

/-- C4, counterexample: the claim says that in a process where neither
`init` nor `session_init` has run, every log call completes normally
with no effect under the default NoOp sink and never panics.  In the
code, `__log_api` evaluates `session::elapsed()` while building the
record — before the NoOp sink is even consulted — and `elapsed()`
calls `SESSION.as_ref().unwrap()`, which panics when `SESSION` is
still `None`.  Concretely, an `info` log in the fresh process state
panics (`none`). -/
theorem log_before_init_cex : infoEntry processInit [] 0 = none := by decide

/-- C4, amended: a log call in a process where the session clock was
never initialized panics inside `session::elapsed`
(`Option::unwrap` on `None`); once `session_init` has run, a log call
made while the logger is still the default NoOp sink — through
`__log_api` or any per-level macro entry point — completes normally
with no effect on the process state. -/
theorem log_before_init_amended :
    (∀ (st : ProcessState) (lv : Level) (encoded : List Nat) (now : Nat),
      st.session = none → logApi st lv encoded now = none)
    ∧ (∀ (st : ProcessState) (lv : Level) (encoded : List Nat) (now : Nat),
      st.session.isSome → st.logger = .nop → logApi st lv encoded now = some st)
    ∧ (∀ (st : ProcessState) (encoded : List Nat) (now : Nat),
      st.session.isSome → st.logger = .nop →
        errorEntry st encoded now = some st
        ∧ warnEntry st encoded now = some st
        ∧ infoEntry st encoded now = some st
        ∧ debugEntry st encoded now = some st
        ∧ traceEntry st encoded now = some st) := by
  have hbase : ∀ (st : ProcessState) (lv : Level) (encoded : List Nat) (now : Nat),
      st.session.isSome → st.logger = .nop → logApi st lv encoded now = some st := by
    intro st lv encoded now hs hl
    match hss : st.session with
    | none => rw [hss] at hs; simp at hs
    | some s0 => simp [logApi, sessionElapsed, hss, hl]
  refine ⟨?_, hbase, ?_⟩
  · intro st lv encoded now hs
    simp [logApi, sessionElapsed, hs]
  · intro st encoded now hs hl
    exact ⟨hbase st .error encoded now hs hl, hbase st .warn encoded now hs hl,
      hbase st .info encoded now hs hl, hbase st .debug encoded now hs hl,
      hbase st .trace encoded now hs hl⟩

/-- Witness for C4's amended claim: after `session_init` (at instant
0), an `info` log in the still-NoOp process completes normally and
leaves the state unchanged. -/
theorem log_before_init_amended_witness :
    logApi (sessionInit processInit 0) .info [3, 4] 7 = some (sessionInit processInit 0) :=
  log_before_init_amended.2.1 (sessionInit processInit 0) .info [3, 4] 7 (by decide) (by decide)

/-! ### Claim C6 (src/uplog/src/logger.rs:32-61) -/

/-- `SetLoggerError` (logger.rs:63-71), displayed
"already initialized". -/
inductive SetLoggerErrorM where
  | alreadyInitialized
  deriving Repr, DecidableEq

/-- `set_therad_handle` (logger.rs:50-61): fails with `SetLoggerError`
when the global `HANDLE` is already set, otherwise stores the handle. -/
def setThreadHandle (st : ProcessState) (h : Nat) : Except SetLoggerErrorM ProcessState :=
  match st.handle with
  | some _ => .error .alreadyInitialized
  | none => .ok { st with handle := some h }

/-- `set_boxed_logger` (logger.rs:32-38): `set_therad_handle(handle)?`
then `set_logger_inner`, which unconditionally installs the logger and
returns `Ok`.  On the error path the `?` returns early, so `LOGGER` is
left untouched.  Result value paired with the state after the call. -/
def setBoxedLogger (st : ProcessState) (l : GlobalLog) (h : Nat) :
    Except SetLoggerErrorM Unit × ProcessState :=
  match setThreadHandle st h with
  | .error e => (.error e, st)
  | .ok st' => (.ok (), { st' with logger := l })

/-- C6: global logger installation succeeds at most once per process:
the first `set_boxed_logger` call installs the sink and returns
success, every subsequent call returns the `AlreadyInitialized` error,
and a failed later call leaves the previously installed logger in
place and functional. -/
theorem set_logger_at_most_once :
    ∀ (st : ProcessState) (l : GlobalLog) (h : Nat),
      (st.handle = none →
        setBoxedLogger st l h
          = (.ok (), { st with handle := some h, logger := l }))
      ∧ (∀ h0, st.handle = some h0 →
          (setBoxedLogger st l h).1 = .error .alreadyInitialized
          ∧ (setBoxedLogger st l h).2 = st)
      ∧ (∀ (l2 : GlobalLog) (h2 : Nat), st.handle = none →
          (setBoxedLogger (setBoxedLogger st l h).2 l2 h2).1 = .error .alreadyInitialized
          ∧ (setBoxedLogger (setBoxedLogger st l h).2 l2 h2).2.logger = l) := by
  intro st l h
  refine ⟨?_, ?_, ?_⟩
  · intro hn
    simp [setBoxedLogger, setThreadHandle, hn]
  · intro h0 hs
    simp [setBoxedLogger, setThreadHandle, hs]
  · intro l2 h2 hn
    simp [setBoxedLogger, setThreadHandle, hn]

/-- Witness for C6: in a fresh process, installing a client logger
succeeds; the immediately following second call fails with
`AlreadyInitialized` and leaves the first logger installed. -/
theorem set_logger_at_most_once_witness :
    setBoxedLogger processInit (.client ⟨4, []⟩) 1
      = (.ok (), { processInit with handle := some 1, logger := .client ⟨4, []⟩ })
    ∧ (setBoxedLogger (setBoxedLogger processInit (.client ⟨4, []⟩) 1).2 .nop 2).1
        = .error .alreadyInitialized
    ∧ (setBoxedLogger (setBoxedLogger processInit (.client ⟨4, []⟩) 1).2 .nop 2).2.logger
        = .client ⟨4, []⟩ :=
  ⟨(set_logger_at_most_once processInit (.client ⟨4, []⟩) 1).1 rfl,
   ((set_logger_at_most_once processInit (.client ⟨4, []⟩) 1).2.2 .nop 2 rfl).1,
   ((set_logger_at_most_once processInit (.client ⟨4, []⟩) 1).2.2 .nop 2 rfl).2⟩

/-! ### Claim C5 (src/uplog/src/client.rs:100-127) -/

/-- Rust `std::time::Duration` subtraction: `Sub for Duration` panics
on overflow ("overflow when subtracting durations") — there is no
floor at zero.  Durations are modelled as nanosecond counts; `none`
models the panic. -/
def durationSub (a b : Nat) : Option Nat :=
  if b ≤ a then some (a - b) else none

/-- `WebsocketClient::run`, client.rs:123: at the end of a tick
iteration the next wait is computed as
`next_duration = self.tick_duration - start.elapsed()`. -/
def nextWaitDuration (tick elapsedIter : Nat) : Option Nat :=
  durationSub tick elapsedIter

/-- C5, counterexample: the claim says the next wait equals the tick
period minus the iteration time, floored at zero, so that an iteration
longer than `T` yields a zero wait and the loop continues normally.
In the code the subtraction is plain `Duration` subtraction, which
panics on underflow: with `T = 500` and an iteration of `501` time
units the worker panics (`none`) instead of waiting `0`. -/
theorem next_wait_cex :
    nextWaitDuration 500 501 = none ∧ nextWaitDuration 500 501 ≠ some 0 := by decide

/-- C5, amended: the next wait duration equals `T - elapsed` whenever
the iteration took at most `T`; an iteration that takes longer than
`T` underflows the `Duration` subtraction and panics the transport
worker — the loop does not continue with a zero wait. -/
theorem next_wait_amended :
    ∀ (tick elapsedIter : Nat),
      (elapsedIter ≤ tick → nextWaitDuration tick elapsedIter = some (tick - elapsedIter))
      ∧ (tick < elapsedIter → nextWaitDuration tick elapsedIter = none) := by
  intro T e
  constructor
  · intro hle
    simp [nextWaitDuration, durationSub, hle]
  · intro hlt
    simp [nextWaitDuration, durationSub]
    omega

/-- Witness for C5's amended claim: an iteration of 120 time units
against a 500-unit tick yields a 380-unit wait. -/
theorem next_wait_amended_witness : nextWaitDuration 500 120 = some 380 :=
  (next_wait_amended 500 120).1 (by decide)

/-! ## Storage directory manager
(src/server/src/lib.rs and src/tools/src/lib.rs)

Both crates own a root directory whose immediate children are session
directories.  We model the root's contents as the list of existing
session directory names (the filesystem under the root); opening or
creating the `seqdata` file inside an existing directory
(`CBORSequenceWriter::new` with `create(true).write(true)`) succeeds,
so the session-directory creation step is the part that decides
success. -/

/-- The `io::ErrorKind` outcomes relevant here. -/
inductive IoErrorM where
  | alreadyExists
  deriving Repr, DecidableEq

/-- `Storage::create_session` in src/server/src/lib.rs:22-27: uses
`std::fs::create_dir(root/<name>)`, which fails with `AlreadyExists`
when the directory is already present; on success the new directory is
added and a `Session` writer is anchored there. -/
def serverCreateSession (dirs : List String) (name : String) :
    Except IoErrorM (List String) :=
  if name ∈ dirs then .error .alreadyExists
  else .ok (name :: dirs)

/-- `Storage::create_session` in src/tools/src/lib.rs:136-140: uses
`std::fs::create_dir_all(root/<name>)`, which succeeds whether or not
the directory already exists. -/
def toolsCreateSession (dirs : List String) (name : String) :
    Except IoErrorM (List String) :=
  .ok (if name ∈ dirs then dirs else name :: dirs)

/-! ### Claim C8 -/

/-- C8, counterexample: the claim says `create_session(name)` succeeds
both when `root/<name>/` does not yet exist and when it already
exists.  The server implementation (src/server/src/lib.rs:22-27) uses
`std::fs::create_dir`, which fails with `AlreadyExists` on an existing
directory: creating session "s" twice fails the second time. -/
theorem create_session_cex :
    serverCreateSession ["s"] "s" = .error .alreadyExists := by
  simp [serverCreateSession]

/-- C8, amended: the tools-crate `create_session` is idempotent in the
session directory — it succeeds and anchors a writer at `root/<name>/`
whether or not the directory already exists (`create_dir_all`) — but
the server-crate `create_session` succeeds only when `root/<name>/`
does not yet exist, and fails with `AlreadyExists` when it does
(`create_dir`). -/
theorem create_session_amended :
    ∀ (dirs : List String) (name : String),
      (toolsCreateSession dirs name
          = .ok (if name ∈ dirs then dirs else name :: dirs))
      ∧ (¬ name ∈ dirs → serverCreateSession dirs name = .ok (name :: dirs))
      ∧ (name ∈ dirs → serverCreateSession dirs name = .error .alreadyExists) := by
  intro dirs name
  refine ⟨rfl, ?_, ?_⟩
  · intro hn
    simp [serverCreateSession, hn]
  · intro hm
    simp [serverCreateSession, hm]

/-- Witness for C8's amended claim: with only session "a" present,
creating "b" succeeds on the server and creating the existing "a"
again succeeds in the tools crate but fails on the server. -/
theorem create_session_amended_witness :
    toolsCreateSession ["a"] "a" = .ok ["a"]
    ∧ serverCreateSession ["a"] "b" = .ok ["b", "a"]
    ∧ serverCreateSession ["a"] "a" = .error .alreadyExists := by
  refine ⟨?_, ?_, ?_⟩
  · have h := (create_session_amended ["a"] "a").1
    simpa using h
  · exact (create_session_amended ["a"] "b").2.1 (by decide)
  · exact (create_session_amended ["a"] "a").2.2 (by decide)

/-! ### Claim C9 (src/tools/src/lib.rs:142-157) -/

/-- One entry of `std::fs::read_dir(root)`: its file name, whether it
is a directory, whether (if a directory) it contains a `seqdata` file,
and its filesystem metadata timestamps. -/
structure DirEntryM where
  name : String
  isDir : Bool
  hasSeqdata : Bool
  created : Nat
  modified : Nat
  deriving Repr, DecidableEq

/-- `SessionInfo` (src/tools/src/lib.rs:186-191): timestamps from
filesystem metadata plus the entry path (identified by its name). -/
structure SessionInfoM where
  createdAt : Nat
  updatedAt : Nat
  path : String
  deriving Repr, DecidableEq

/-- `Storage::records` (src/tools/src/lib.rs:142-157): folds over
`read_dir(root)` and, for every entry, reads its metadata and pushes a
`SessionInfo` — there is no check that the entry is a directory, nor
that it contains a `seqdata` file. -/
def storageRecords (root : List DirEntryM) : List SessionInfoM :=
  root.map fun e => ⟨e.created, e.modified, e.name⟩

/-- Modelled from the spec's words, for comparison with the code's
`storageRecords`: enumeration yields a `SessionInfo` for every
immediate subdirectory that contains a `seqdata` file, and for no
other entry. -/
def specEnumerate (root : List DirEntryM) : List SessionInfoM :=
  (root.filter fun e => e.isDir && e.hasSeqdata).map fun e => ⟨e.created, e.modified, e.name⟩

/-- C9, counterexample: the claim says enumeration yields a
`SessionInfo` only for immediate subdirectories containing a `seqdata`
file — not for plain files.  The code performs no filtering: a root
containing a single plain file yields one `SessionInfo` where the
claim requires none. -/
theorem records_filter_cex :
    storageRecords [⟨"notes.txt", false, false, 3, 9⟩] = [⟨3, 9, "notes.txt"⟩]
    ∧ specEnumerate [⟨"notes.txt", false, false, 3, 9⟩] = [] := by decide

/-- C9, amended: `Storage::records` yields exactly one `SessionInfo`
— with `created_at` and `updated_at` taken from filesystem metadata
and the path pointing at the entry — for every immediate entry of the
root, whatever its kind: plain files and subdirectories without a
`seqdata` file are included as well. -/
theorem records_every_entry :
    ∀ (root : List DirEntryM),
      (storageRecords root).length = root.length
      ∧ (∀ e, e ∈ root →
          (⟨e.created, e.modified, e.name⟩ : SessionInfoM) ∈ storageRecords root)
      ∧ (∀ i ∈ storageRecords root,
          ∃ e, e ∈ root ∧ i = ⟨e.created, e.modified, e.name⟩) := by
  intro root
  refine ⟨by simp [storageRecords], ?_, ?_⟩
  · intro e he
    exact List.mem_map_of_mem _ he
  · intro i hi
    rcases List.mem_map.mp hi with ⟨e, he, hei⟩
    exact ⟨e, he, hei.symm⟩

/-- Witness for C9's amended claim: a root with one directory holding
`seqdata` and one plain file yields one `SessionInfo` per entry. -/
theorem records_every_entry_witness :
    (storageRecords [⟨"aa", true, true, 1, 2⟩, ⟨"x.log", false, false, 3, 4⟩]).length = 2
    ∧ (⟨3, 4, "x.log"⟩ : SessionInfoM)
        ∈ storageRecords [⟨"aa", true, true, 1, 2⟩, ⟨"x.log", false, false, 3, 4⟩] :=
  ⟨(records_every_entry [⟨"aa", true, true, 1, 2⟩, ⟨"x.log", false, false, 3, 4⟩]).1,
   (records_every_entry [⟨"aa", true, true, 1, 2⟩, ⟨"x.log", false, false, 3, 4⟩]).2.1
     ⟨"x.log", false, false, 3, 4⟩ (by decide)⟩

/-! ## The Value model (src/uplog/src/kv.rs)

`uplog::Value` is the float-free fragment of the Rust enum
(`Null`, `I64`, `U64`, `Bool`, `Text`, `Bytes`, `Array`); the
`F32`/`F64` variants are floating point and outside this model.
A Rust `String` is a UTF-8 byte sequence; the `Text` payload is
modelled by that byte sequence (`List Nat`). -/

inductive Value where
  | null
  | i64 (v : Int)
  | u64 (v : Nat)
  | bool (b : Bool)
  | text (s : List Nat)
  | bytes (b : List Nat)
  | array (vs : List Value)
  deriving Repr

/-! ## Display rendering (src/uplog/src/kv.rs:20-34, lib.rs:120-145)

`fmt` methods either succeed with the rendered text or panic; the
panic path (`none`) is the `x[0]` index in the `Value::Array` arm.
The bytes of a `Text` payload are written verbatim by `write!`;
we render them one `Char` per byte. -/

/-- The characters of a text payload, one per byte. -/
def byteChars (bs : List Nat) : String :=
  String.mk (bs.map Char.ofNat)

/-- `impl Display for Value` (kv.rs:20-34).  The `Array` arm is
`write!(f, "vec({}, len={})", x[0], x.len())`: it indexes `x[0]`,
which panics (`none`) when the element vector is empty, and otherwise
renders only the first element plus the length. -/
def displayValue : Value → Option String
  | .null => some "null"
  | .i64 x => some (toString x)
  | .u64 x => some (toString x)
  | .bool b => some (if b then "true" else "false")
  | .text s => some ("\"" ++ byteChars s ++ "\"")
  | .bytes b => some ("bytes(" ++ toString b.length ++ ")")
  | .array [] => none
  | .array (v :: vs) =>
    (displayValue v).map fun s => "vec(" ++ s ++ ", len=" ++ toString (vs.length + 1) ++ ")"

/-- `{:?}` of `uplog::Level`: the derived Debug name. -/
def levelDebug : Level → String
  | .trace => "Trace"
  | .debug => "Debug"
  | .info => "Info"
  | .warn => "Warn"
  | .error => "Error"

/-- Model of `uplog::Record` as far as `Display` is concerned
(lib.rs:70-81): level, elapsed duration (nanoseconds), category,
optional file, optional line, message, and the optional KV map — a
`BTreeMap`, modelled as its ordered key/value sequence. -/
structure RecordM where
  level : Level
  elapsedNanos : Nat
  category : String
  file : Option String
  line : Option Nat
  message : String
  kv : Option (List (String × Value))
  deriving Repr

/-- Zero-pad a numeral to 4 digits. -/
def pad4 (n : Nat) : String :=
  let s := toString n
  (List.replicate (4 - s.length) '0').asString ++ s

/-- `{:.4}` applied to `elapsed.as_secs_f64()`: seconds and four
fractional digits.  (Exact IEEE-754 rounding of the formatter is
outside the model — this truncates — but the rendering is total
either way, which is what claim C10 is about.) -/
def elapsedDisplay (nanos : Nat) : String :=
  toString (nanos / 1000000000) ++ "." ++ pad4 (nanos % 1000000000 / 100000)

/-- One `k = v, ` fragment per key, in map order (lib.rs:134-140);
`none` when rendering some value panics. -/
def displayKVItems : List (String × Value) → Option String
  | [] => some ""
  | (k, v) :: rest =>
    (displayValue v).bind fun sv =>
      (displayKVItems rest).map fun srest => k ++ " = " ++ sv ++ ", " ++ srest

/-- `impl Display for Record` (lib.rs:120-145):
`"[<Level>] <sec>.<frac> [<category>] <message> (<file>:L<line>)"`
followed, when `kv` is present, by `" {k1 = v1, k2 = v2, }"`. -/
def displayRecord (r : RecordM) : Option String :=
  let head := "[" ++ levelDebug r.level ++ "] " ++ elapsedDisplay r.elapsedNanos
    ++ " [" ++ r.category ++ "] " ++ r.message
    ++ " (" ++ r.file.getD "" ++ ":L" ++ toString (r.line.getD 0) ++ ")"
  match r.kv with
  | none => some head
  | some kvs => (displayKVItems kvs).map fun s => head ++ " \x7b" ++ s ++ "\x7d"

mutual

/-- `true` when every `Array` node of the value is nonempty. -/
def noEmptyArrays : Value → Bool
  | .null => true
  | .i64 _ => true
  | .u64 _ => true
  | .bool _ => true
  | .text _ => true
  | .bytes _ => true
  | .array vs => !vs.isEmpty && noEmptyArraysList vs

/-- `noEmptyArrays` over a list of values. -/
def noEmptyArraysList : List Value → Bool
  | [] => true
  | v :: vs => noEmptyArrays v && noEmptyArraysList vs

end

lemma displayValue_total : ∀ (v : Value), noEmptyArrays v = true →
    (displayValue v).isSome = true
  | .null, _ => rfl
  | .i64 _, _ => rfl
  | .u64 _, _ => rfl
  | .bool _, _ => rfl
  | .text _, _ => rfl
  | .bytes _, _ => rfl
  | .array [], h => by simp [noEmptyArrays] at h
  | .array (v :: vs), h => by
    have hv : noEmptyArrays v = true := by
      simp only [noEmptyArrays, noEmptyArraysList, Bool.and_eq_true] at h
      exact h.2.1
    have hs := displayValue_total v hv
    rcases ho : displayValue v with _ | s
    · rw [ho] at hs
      simp at hs
    · simp [displayValue, ho]

lemma displayKVItems_total : ∀ (kvs : List (String × Value)),
    (∀ p ∈ kvs, noEmptyArrays p.2 = true) → (displayKVItems kvs).isSome = true := by
  intro kvs
  induction kvs with
  | nil => intro _; rfl
  | cons p rest ih =>
    intro h
    have hp := displayValue_total p.2 (h p (List.mem_cons_self p rest))
    have hr := ih fun q hq => h q (List.mem_cons_of_mem p hq)
    rcases ho : displayValue p.2 with _ | sv
    · rw [ho] at hp; simp at hp
    · rcases hor : displayKVItems rest with _ | sr
      · rw [hor] at hr; simp at hr
      · simp [displayKVItems, ho, hor]

/-! ### Claim C10 -/

/-- C10, counterexample: the claim says rendering with `Display` is
total for every constructible `Value` and `Record`, and in particular
that a `Value::Array` with an empty element vector formats normally.
The `Array` arm of `impl Display for Value` indexes `x[0]`, which
panics on an empty vector — both standalone and inside a `Record`'s
key-value map. -/
theorem display_empty_array_cex :
    displayValue (.array []) = none
    ∧ displayRecord ⟨.info, 0, "cat", none, none, "msg", some [("k", .array [])]⟩
        = none := ⟨rfl, rfl⟩

/-- C10, amended: rendering with `Display` terminates normally for
every constructible `Value` in which every `Array` node is nonempty
(and for every `Record` whose key-value map contains only such
values); formatting a `Value::Array` whose element vector is empty
panics on the `x[0]` index instead of terminating normally. -/
theorem display_total_amended :
    (∀ v : Value, noEmptyArrays v = true → (displayValue v).isSome = true)
    ∧ (∀ r : RecordM, (∀ p ∈ r.kv.getD [], noEmptyArrays p.2 = true) →
        (displayRecord r).isSome = true) := by
  refine ⟨displayValue_total, ?_⟩
  intro r h
  rcases hkv : r.kv with _ | kvs
  · simp [displayRecord, hkv]
  · rw [hkv] at h
    have := displayKVItems_total kvs (by simpa using h)
    rcases ho : displayKVItems kvs with _ | s
    · rw [ho] at this; simp at this
    · simp [displayRecord, hkv, ho]

/-- Witness for C10's amended claim: a nested nonempty-array value and
a record carrying it both render. -/
theorem display_total_amended_witness :
    (displayValue (.array [.array [.i64 (-3)], .u64 7])).isSome = true
    ∧ (displayRecord ⟨.warn, 1500000, "c", some "f.rs", some 3, "m",
        some [("k", .array [.array [.i64 (-3)], .u64 7])]⟩).isSome = true :=
  ⟨display_total_amended.1 (.array [.array [.i64 (-3)], .u64 7]) (by decide),
   display_total_amended.2
     ⟨.warn, 1500000, "c", some "f.rs", some 3, "m",
       some [("k", .array [.array [.i64 (-3)], .u64 7])]⟩ (by decide)⟩

/-! ## CBOR codec for Value (src/uplog/src/kv.rs:36-176 via serde_cbor)

`impl Serialize for Value` dispatches each variant to the serde_cbor
serializer; `impl Deserialize for Value` drives
`deserializer.deserialize_any(ValueVisitor)`.  The wire format is
CBOR: a head byte `major*32 + info` followed by the argument bytes
(big-endian, minimal width) and the payload.  The encoder below is
serde_cbor's serializer restricted to the float-free fragment:

* `serialize_u64` writes major 0 with the value as argument;
* `serialize_i64` writes major 0 for `v >= 0` and major 1 with
  argument `-(v+1)` for `v < 0`;
* `serialize_str` / `serialize_bytes` write major 3 / major 2 with the
  byte length as argument followed by the bytes;
* a `Vec<Value>` serializes as a definite-length major-4 array;
* `serialize_bool` writes 0xf4/0xf5, `serialize_unit` writes 0xf6.

The decoder is serde_cbor's `deserialize_any` driving `ValueVisitor`:
major 0 → `visit_u64` (`Value::U64`), major 1 → `visit_i64`
(`Value::I64`, rejected when the argument exceeds `i64::MAX`), major 2
→ `visit_byte_buf`, major 3 → UTF-8 validation then `visit_string`,
major 4 → `visit_seq`, 0xf4/0xf5 → `visit_bool`, 0xf6 →
`visit_unit`.  Inputs the encoder never produces and whose handling
needs types outside the model are rejected (`none`): float heads
(0xf8-0xfb, floating point), indefinite-length items (info 31), tags
(major 6) and maps (major 5, which the `ValueVisitor` cannot visit). -/

/-- `k` big-endian base-256 digits of `n` (the argument bytes
following a CBOR head, network byte order). -/
def toBytesBE : Nat → Nat → List Nat
  | 0, _ => []
  | k + 1, n => n / 256 ^ k :: toBytesBE k (n % 256 ^ k)

/-- Read `k` big-endian bytes, most significant first, onto an
accumulator; `none` on truncation. -/
def readBEAux : Nat → Nat → List Nat → Option (Nat × List Nat)
  | 0, acc, bs => some (acc, bs)
  | _ + 1, _, [] => none
  | k + 1, acc, b :: bs => readBEAux k (acc * 256 + b) bs

/-- Read a `k`-byte big-endian argument. -/
def readBE (k : Nat) (bs : List Nat) : Option (Nat × List Nat) :=
  readBEAux k 0 bs

/-- The info bits of the minimal-width argument encoding
(serde_cbor `write_u64`): values below 24 are inline, then 24-27
select a 1/2/4/8-byte argument. -/
def encArgInfo (n : Nat) : Nat :=
  if n < 24 then n
  else if n < 256 then 24
  else if n < 65536 then 25
  else if n < 4294967296 then 26
  else 27

/-- The argument bytes following the head byte. -/
def encArgTail (n : Nat) : List Nat :=
  if n < 24 then []
  else if n < 256 then toBytesBE 1 n
  else if n < 65536 then toBytesBE 2 n
  else if n < 4294967296 then toBytesBE 4 n
  else toBytesBE 8 n

/-- A CBOR head: `major*32 + info` byte plus argument bytes. -/
def encHead (major n : Nat) : List Nat :=
  (major * 32 + encArgInfo n) :: encArgTail n

/-- Decode the argument selected by the info bits: inline below 24,
1/2/4/8 bytes for 24-27, error otherwise (28-30 are malformed; 31 is
the indefinite-length marker, which the encoder never produces and
which is outside this model). -/
def parseArg (info : Nat) (bs : List Nat) : Option (Nat × List Nat) :=
  if info < 24 then some (info, bs)
  else if info = 24 then readBE 1 bs
  else if info = 25 then readBE 2 bs
  else if info = 26 then readBE 4 bs
  else if info = 27 then readBE 8 bs
  else none

/-- A UTF-8 continuation byte (`0x80..=0xBF`). -/
def isUtf8Cont (b : Nat) : Bool :=
  128 ≤ b && b ≤ 191

/-- RFC 3629 UTF-8 validity of a byte sequence, as enforced by
`str::from_utf8` when serde_cbor decodes a text item. -/
def utf8Valid : List Nat → Bool
  | [] => true
  | b :: rest =>
    if b ≤ 127 then utf8Valid rest
    else if 194 ≤ b && b ≤ 223 then
      match rest with
      | b1 :: rest2 => isUtf8Cont b1 && utf8Valid rest2
      | [] => false
    else if b = 224 then
      match rest with
      | b1 :: b2 :: rest2 => (160 ≤ b1 && b1 ≤ 191) && isUtf8Cont b2 && utf8Valid rest2
      | _ => false
    else if (225 ≤ b && b ≤ 236) || b = 238 || b = 239 then
      match rest with
      | b1 :: b2 :: rest2 => isUtf8Cont b1 && isUtf8Cont b2 && utf8Valid rest2
      | _ => false
    else if b = 237 then
      match rest with
      | b1 :: b2 :: rest2 => (128 ≤ b1 && b1 ≤ 159) && isUtf8Cont b2 && utf8Valid rest2
      | _ => false
    else if b = 240 then
      match rest with
      | b1 :: b2 :: b3 :: rest2 =>
        (144 ≤ b1 && b1 ≤ 191) && isUtf8Cont b2 && isUtf8Cont b3 && utf8Valid rest2
      | _ => false
    else if 241 ≤ b && b ≤ 243 then
      match rest with
      | b1 :: b2 :: b3 :: rest2 =>
        isUtf8Cont b1 && isUtf8Cont b2 && isUtf8Cont b3 && utf8Valid rest2
      | _ => false
    else if b = 244 then
      match rest with
      | b1 :: b2 :: b3 :: rest2 =>
        (128 ≤ b1 && b1 ≤ 143) && isUtf8Cont b2 && isUtf8Cont b3 && utf8Valid rest2
      | _ => false
    else false

mutual

/-- serde_cbor's serializer applied to a `Value` (float-free
fragment), kv.rs:36-54. -/
def encodeValue : Value → List Nat
  | .null => [246]
  | .bool false => [244]
  | .bool true => [245]
  | .u64 n => encHead 0 n
  | .i64 v => if v < 0 then encHead 1 (-(v + 1)).toNat else encHead 0 v.toNat
  | .text s => encHead 3 s.length ++ s
  | .bytes b => encHead 2 b.length ++ b
  | .array vs => encHead 4 vs.length ++ encodeList vs

/-- The concatenated encodings of a list of values (the body of a
definite-length array). -/
def encodeList : List Value → List Nat
  | [] => []
  | v :: vs => encodeValue v ++ encodeList vs

end

mutual

/-- serde_cbor's `deserialize_any` driving the `ValueVisitor`
(kv.rs:56-176).  `fuel` is a recursion bound on the nesting depth; it
is a modelling artifact only — every value of depth `d` parses with
any fuel of at least `d`, and `decode` below passes more fuel than any
input byte string can need. -/
def parseValue : Nat → List Nat → Option (Value × List Nat)
  | 0, _ => none
  | _ + 1, [] => none
  | fuel + 1, b :: rest =>
    let major := b / 32
    let info := b % 32
    if major = 0 then
      (parseArg info rest).map fun p => (.u64 p.1, p.2)
    else if major = 1 then
      (parseArg info rest).bind fun p =>
        if p.1 < 2 ^ 63 then some (.i64 (-1 - (p.1 : Int)), p.2) else none
    else if major = 2 then
      (parseArg info rest).bind fun p =>
        if p.1 ≤ p.2.length then some (.bytes (p.2.take p.1), p.2.drop p.1) else none
    else if major = 3 then
      (parseArg info rest).bind fun p =>
        if p.1 ≤ p.2.length then
          if utf8Valid (p.2.take p.1) then some (.text (p.2.take p.1), p.2.drop p.1)
          else none
        else none
    else if major = 4 then
      (parseArg info rest).bind fun p =>
        (parseList fuel p.1 p.2).map fun q => (.array q.1, q.2)
    else if major = 7 then
      if info = 20 then some (.bool false, rest)
      else if info = 21 then some (.bool true, rest)
      else if info = 22 then some (.null, rest)
      else none
    else none
termination_by fuel _ => (fuel, 0)

/-- `visit_seq`: parse `n` successive elements of a definite-length
array. -/
def parseList : Nat → Nat → List Nat → Option (List Value × List Nat)
  | _, 0, bs => some ([], bs)
  | fuel, n + 1, bs =>
    (parseValue fuel bs).bind fun p =>
      (parseList fuel n p.2).map fun q => (p.1 :: q.1, q.2)
termination_by fuel n _ => (fuel, n + 1)

end

/-- `decode(bytes) -> (value, consumed)`: the streaming decoder entry
point — parse one `Value` from the front of the byte string and
report how many bytes were consumed.  The fuel `bytes.length + 1`
exceeds the nesting depth of anything the byte string can encode. -/
def decode (bs : List Nat) : Option (Value × Nat) :=
  (parseValue (bs.length + 1) bs).map fun p => (p.1, bs.length - p.2.length)

mutual

/-- The integer canonicalisation the codec performs: CBOR has a single
representation for non-negative integers (major 0), so a non-negative
`I64` comes back as the `U64` of the same magnitude; everything else
round-trips unchanged. -/
def canonValue : Value → Value
  | .null => .null
  | .bool b => .bool b
  | .u64 n => .u64 n
  | .i64 v => if v < 0 then .i64 v else .u64 v.toNat
  | .text s => .text s
  | .bytes b => .bytes b
  | .array vs => .array (canonList vs)

def canonList : List Value → List Value
  | [] => []
  | v :: vs => canonValue v :: canonList vs

end

mutual

/-- Constructibility of a modelled `Value` in the Rust types:
`i64`/`u64` payloads in range, byte payloads actual bytes with
`usize` lengths, text payloads valid UTF-8 (a Rust `String`
invariant). -/
def validValue : Value → Bool
  | .null => true
  | .bool _ => true
  | .i64 v => decide (-(2 ^ 63) ≤ v) && decide (v < 2 ^ 63)
  | .u64 n => decide (n < 2 ^ 64)
  | .text s => decide (s.length < 2 ^ 64) && s.all (fun b => decide (b < 256)) && utf8Valid s
  | .bytes b => decide (b.length < 2 ^ 64) && b.all (fun b => decide (b < 256))
  | .array vs => decide (vs.length < 2 ^ 64) && validList vs

def validList : List Value → Bool
  | [] => true
  | v :: vs => validValue v && validList vs

end

mutual

/-- Nesting depth of a value: the fuel needed to parse it. -/
def valueDepth : Value → Nat
  | .array vs => valueListDepth vs + 1
  | _ => 1

def valueListDepth : List Value → Nat
  | [] => 0
  | v :: vs => max (valueDepth v) (valueListDepth vs)

end

/-! ### Round-trip lemmas for the codec -/

lemma readBEAux_toBytesBE : ∀ (k acc n : Nat) (rest : List Nat), n < 256 ^ k →
    readBEAux k acc (toBytesBE k n ++ rest) = some (acc * 256 ^ k + n, rest) := by
  intro k
  induction k with
  | zero =>
    intro acc n rest h
    have hn : n = 0 := by simpa using h
    simp [toBytesBE, readBEAux, hn]
  | succ k ih =>
    intro acc n rest h
    have hlt : n % 256 ^ k < 256 ^ k :=
      Nat.mod_lt _ (Nat.pos_pow_of_pos k (by omega))
    have hstep := ih (acc * 256 + n / 256 ^ k) (n % 256 ^ k) rest hlt
    have hmod : 256 ^ k * (n / 256 ^ k) + n % 256 ^ k = n := Nat.div_add_mod n (256 ^ k)
    calc readBEAux (k + 1) acc (toBytesBE (k + 1) n ++ rest)
        = readBEAux k (acc * 256 + n / 256 ^ k) (toBytesBE k (n % 256 ^ k) ++ rest) := rfl
      _ = some ((acc * 256 + n / 256 ^ k) * 256 ^ k + n % 256 ^ k, rest) := hstep
      _ = some (acc * 256 ^ (k + 1) + n, rest) := by
          congr 1
          rw [Prod.mk.injEq]
          refine ⟨?_, rfl⟩
          calc (acc * 256 + n / 256 ^ k) * 256 ^ k + n % 256 ^ k
              = acc * (256 ^ k * 256) + (256 ^ k * (n / 256 ^ k) + n % 256 ^ k) := by ring
            _ = acc * 256 ^ (k + 1) + n := by rw [hmod, pow_succ]

lemma readBE_toBytesBE (k n : Nat) (rest : List Nat) (h : n < 256 ^ k) :
    readBE k (toBytesBE k n ++ rest) = some (n, rest) := by
  have hx := readBEAux_toBytesBE k 0 n rest h
  simpa [readBE] using hx

lemma encArgInfo_lt (n : Nat) : encArgInfo n < 28 := by
  unfold encArgInfo
  split
  · omega
  · split <;> [omega; split <;> [omega; split <;> omega]]

lemma parseArg_enc (n : Nat) (h : n < 2 ^ 64) (rest : List Nat) :
    parseArg (encArgInfo n) (encArgTail n ++ rest) = some (n, rest) := by
  by_cases h0 : n < 24
  · simp [parseArg, encArgInfo, encArgTail, h0]
  · by_cases h1 : n < 256
    · have : encArgInfo n = 24 := by simp [encArgInfo, h0, h1]
      rw [this]
      have ht : encArgTail n = toBytesBE 1 n := by simp [encArgTail, h0, h1]
      rw [ht]
      simp only [parseArg]
      norm_num
      exact readBE_toBytesBE 1 n rest (by norm_num; omega)
    · by_cases h2 : n < 65536
      · have hi : encArgInfo n = 25 := by simp [encArgInfo, h0, h1, h2]
        have ht : encArgTail n = toBytesBE 2 n := by simp [encArgTail, h0, h1, h2]
        rw [hi, ht]
        simp only [parseArg]
        norm_num
        exact readBE_toBytesBE 2 n rest (by norm_num; omega)
      · by_cases h3 : n < 4294967296
        · have hi : encArgInfo n = 26 := by simp [encArgInfo, h0, h1, h2, h3]
          have ht : encArgTail n = toBytesBE 4 n := by simp [encArgTail, h0, h1, h2, h3]
          rw [hi, ht]
          simp only [parseArg]
          norm_num
          exact readBE_toBytesBE 4 n rest (by norm_num; omega)
        · have hi : encArgInfo n = 27 := by simp [encArgInfo, h0, h1, h2, h3]
          have ht : encArgTail n = toBytesBE 8 n := by simp [encArgTail, h0, h1, h2, h3]
          rw [hi, ht]
          simp only [parseArg]
          norm_num
          exact readBE_toBytesBE 8 n rest (by norm_num; omega)

lemma one_le_valueDepth (v : Value) : 1 ≤ valueDepth v := by
  cases v <;> simp [valueDepth]

mutual

theorem valueDepth_le_encLength : ∀ v : Value, valueDepth v ≤ (encodeValue v).length
  | .null => by simp [valueDepth, encodeValue]
  | .bool b => by cases b <;> simp [valueDepth, encodeValue]
  | .u64 n => by simp [valueDepth, encodeValue, encHead]
  | .i64 v => by
    by_cases h : v < 0 <;> simp [valueDepth, encodeValue, encHead, h]
  | .text s => by simp [valueDepth, encodeValue, encHead]
  | .bytes b => by simp [valueDepth, encodeValue, encHead]
  | .array vs => by
    have h := valueListDepth_le_encLength vs
    simp only [valueDepth, encodeValue, encHead, List.cons_append, List.length_cons,
      List.length_append]
    omega

theorem valueListDepth_le_encLength : ∀ vs : List Value, valueListDepth vs ≤ (encodeList vs).length
  | [] => by simp [valueListDepth, encodeList]
  | v :: vs => by
    have h1 := valueDepth_le_encLength v
    have h2 := valueListDepth_le_encLength vs
    simp only [valueListDepth, encodeList, List.length_append]
    omega

end

lemma parseValue_simple (fuel : Nat) (rest : List Nat) :
    parseValue (fuel + 1) (246 :: rest) = some (.null, rest)
    ∧ parseValue (fuel + 1) (244 :: rest) = some (.bool false, rest)
    ∧ parseValue (fuel + 1) (245 :: rest) = some (.bool true, rest) := by
  refine ⟨?_, ?_, ?_⟩ <;> simp [parseValue]

lemma parseValue_major0 (fuel n : Nat) (hn : n < 2 ^ 64) (rest : List Nat) :
    parseValue (fuel + 1) (encHead 0 n ++ rest) = some (.u64 n, rest) := by
  have hb := encArgInfo_lt n
  have hmaj : (0 * 32 + encArgInfo n) / 32 = 0 := by omega
  have hinfo : (0 * 32 + encArgInfo n) % 32 = encArgInfo n := by omega
  simp only [encHead, List.cons_append, parseValue, hmaj, hinfo, if_pos rfl]
  rw [parseArg_enc n hn rest]
  rfl

lemma parseValue_major1 (fuel n : Nat) (hn : n < 2 ^ 64) (rest : List Nat) :
    parseValue (fuel + 1) (encHead 1 n ++ rest)
      = if n < 2 ^ 63 then some (.i64 (-1 - (n : Int)), rest) else none := by
  have hb := encArgInfo_lt n
  have hmaj : (1 * 32 + encArgInfo n) / 32 = 1 := by omega
  have hinfo : (1 * 32 + encArgInfo n) % 32 = encArgInfo n := by omega
  simp only [encHead, List.cons_append, parseValue, hmaj, hinfo]
  norm_num
  rw [parseArg_enc n hn rest]
  rfl

lemma parseValue_major2 (fuel : Nat) (bl rest : List Nat) (hlen : bl.length < 2 ^ 64) :
    parseValue (fuel + 1) ((encHead 2 bl.length ++ bl) ++ rest) = some (.bytes bl, rest) := by
  have hb := encArgInfo_lt bl.length
  have hmaj : (2 * 32 + encArgInfo bl.length) / 32 = 2 := by omega
  have hinfo : (2 * 32 + encArgInfo bl.length) % 32 = encArgInfo bl.length := by omega
  simp only [encHead, List.cons_append, List.append_assoc, parseValue, hmaj, hinfo]
  norm_num
  rw [parseArg_enc bl.length hlen (bl ++ rest)]
  have hle : bl.length ≤ (bl ++ rest).length := by simp
  simp [hle, List.take_left, List.drop_left]

lemma parseValue_major3 (fuel : Nat) (s rest : List Nat) (hlen : s.length < 2 ^ 64)
    (hu : utf8Valid s = true) :
    parseValue (fuel + 1) ((encHead 3 s.length ++ s) ++ rest) = some (.text s, rest) := by
  have hb := encArgInfo_lt s.length
  have hmaj : (3 * 32 + encArgInfo s.length) / 32 = 3 := by omega
  have hinfo : (3 * 32 + encArgInfo s.length) % 32 = encArgInfo s.length := by omega
  simp only [encHead, List.cons_append, List.append_assoc, parseValue, hmaj, hinfo]
  norm_num
  rw [parseArg_enc s.length hlen (s ++ rest)]
  have hle : s.length ≤ (s ++ rest).length := by simp
  simp [hle, List.take_left, List.drop_left, hu]

lemma parseValue_major4 (fuel n : Nat) (hn : n < 2 ^ 64) (rest : List Nat) :
    parseValue (fuel + 1) (encHead 4 n ++ rest)
      = (parseList fuel n rest).map fun q => (.array q.1, q.2) := by
  have hb := encArgInfo_lt n
  have hmaj : (4 * 32 + encArgInfo n) / 32 = 4 := by omega
  have hinfo : (4 * 32 + encArgInfo n) % 32 = encArgInfo n := by omega
  simp only [encHead, List.cons_append, parseValue, hmaj, hinfo]
  norm_num
  rw [parseArg_enc n hn rest]
  rfl

theorem parseValue_encodeValue : ∀ (fuel : Nat) (v : Value) (rest : List Nat),
    validValue v = true → valueDepth v ≤ fuel →
    parseValue fuel (encodeValue v ++ rest) = some (canonValue v, rest) := by
  intro fuel
  induction fuel with
  | zero =>
    intro v rest _ hd
    exact absurd hd (by have := one_le_valueDepth v; omega)
  | succ fuel ih =>
    intro v rest hv hd
    cases v with
    | null => exact (parseValue_simple fuel rest).1
    | bool b =>
      cases b
      · exact (parseValue_simple fuel rest).2.1
      · exact (parseValue_simple fuel rest).2.2
    | u64 n =>
      have hvn : n < 2 ^ 64 := by simpa [validValue] using hv
      rw [show encodeValue (.u64 n) = encHead 0 n from rfl, parseValue_major0 fuel n hvn rest]
      rfl
    | i64 m =>
      have hrange : -(2 ^ 63) ≤ m ∧ m < 2 ^ 63 := by
        simpa [validValue, Bool.and_eq_true, decide_eq_true_eq] using hv
      by_cases hneg : m < 0
      · have harg : (-(m + 1)).toNat < 2 ^ 64 := by omega
        have h63 : (-(m + 1)).toNat < 2 ^ 63 := by omega
        have henc : encodeValue (.i64 m) = encHead 1 (-(m + 1)).toNat := by
          simp [encodeValue, if_pos hneg]
        rw [henc, parseValue_major1 fuel _ harg rest, if_pos h63]
        have hval : (-1 - (((-(m + 1)).toNat : Int))) = m := by omega
        rw [hval]
        simp [canonValue, if_pos hneg]
      · have hvn : m.toNat < 2 ^ 64 := by omega
        have henc : encodeValue (.i64 m) = encHead 0 m.toNat := by
          simp [encodeValue, if_neg hneg]
        rw [henc, parseValue_major0 fuel _ hvn rest]
        simp [canonValue, if_neg hneg]
    | text s =>
      have hvparts : s.length < 2 ^ 64 ∧ utf8Valid s = true := by
        have hx := hv
        simp only [validValue, Bool.and_eq_true, decide_eq_true_eq] at hx
        exact ⟨hx.1.1, hx.2⟩
      rw [show encodeValue (.text s) = encHead 3 s.length ++ s from rfl,
        parseValue_major3 fuel s rest hvparts.1 hvparts.2]
      rfl
    | bytes bl =>
      have hlen64 : bl.length < 2 ^ 64 := by
        have hx := hv
        simp only [validValue, Bool.and_eq_true, decide_eq_true_eq] at hx
        exact hx.1
      rw [show encodeValue (.bytes bl) = encHead 2 bl.length ++ bl from rfl,
        parseValue_major2 fuel bl rest hlen64]
      rfl
    | array vs =>
      have hvparts : vs.length < 2 ^ 64 ∧ validList vs = true := by
        simpa [validValue, Bool.and_eq_true, decide_eq_true_eq] using hv
      have hdl : valueListDepth vs ≤ fuel := by
        have hx : valueDepth (.array vs) = valueListDepth vs + 1 := rfl
        omega
      have haux : ∀ (ws : List Value) (rest2 : List Nat), validList ws = true →
          valueListDepth ws ≤ fuel →
          parseList fuel ws.length (encodeList ws ++ rest2) = some (canonList ws, rest2) := by
        intro ws
        induction ws with
        | nil =>
          intro rest2 _ _
          simp [parseList, encodeList, canonList]
        | cons w ws' ihw =>
          intro rest2 hvl hdL
          have hwv : validValue w = true ∧ validList ws' = true := by
            simpa [validList, Bool.and_eq_true] using hvl
          have hwd : valueDepth w ≤ fuel := by
            simp only [valueListDepth] at hdL
            omega
          have hwd' : valueListDepth ws' ≤ fuel := by
            simp only [valueListDepth] at hdL
            omega
          have h1 := ih w (encodeList ws' ++ rest2) hwv.1 hwd
          have h2 := ihw rest2 hwv.2 hwd'
          simp only [encodeList, List.length_cons, List.append_assoc, parseList]
          rw [h1]
          simp only [Option.some_bind]
          rw [h2]
          rfl
      have hrw : encodeValue (.array vs) ++ rest
          = encHead 4 vs.length ++ (encodeList vs ++ rest) := by
        simp [encodeValue, List.append_assoc]
      rw [hrw, parseValue_major4 fuel vs.length hvparts.1 (encodeList vs ++ rest),
        haux vs rest hvparts.2 hdl]
      rfl

/-! ### Claim C3 -/

/-- C3, counterexample: the claim says decoding the encoding of any
constructible `Value` yields a value equal to the original, with the
only exception that integers encoded from narrower Rust widths come
back as the 64-bit `I64`/`U64` variants.  `Value` itself only carries
64-bit integers, so that exception is vacuous at the `Value` level —
but CBOR has a single representation for non-negative integers:
serde_cbor encodes `I64(0)` with major type 0, and the decoder maps
major type 0 to `visit_u64`, i.e. `U64(0) ≠ I64(0)`. -/
theorem decode_encode_i64_cex :
    decode (encodeValue (.i64 0)) = some (.u64 0, 1)
    ∧ decode (encodeValue (.i64 0)) ≠ some (.i64 0, 1) := by
  have he : encodeValue (.i64 0) = [0] := by
    norm_num [encodeValue, encHead, encArgInfo, encArgTail]
  have h1 : decode (encodeValue (.i64 0)) = some (.u64 0, 1) := by
    rw [he]
    norm_num [decode, parseValue, parseArg]
  refine ⟨h1, ?_⟩
  rw [h1]
  simp

/-- C3, amended: for every constructible `Value` of the float-free
fragment (the `F32`/`F64` variants are floating point and outside the
model), decoding the bytes produced by encoding `v` succeeds with
exactly `len(encode(v))` bytes consumed and yields `v` up to integer
canonicalisation: a non-negative `I64` payload comes back as the
`U64` of the same magnitude (CBOR encodes non-negative integers
unsigned), negative `I64`, `U64` and every other variant come back
unchanged, recursively through arrays. -/
theorem decode_encode_roundtrip :
    ∀ v : Value, validValue v = true →
      decode (encodeValue v) = some (canonValue v, (encodeValue v).length) := by
  intro v hv
  have hdlen := valueDepth_le_encLength v
  have h := parseValue_encodeValue ((encodeValue v).length + 1) v [] hv (by omega)
  rw [List.append_nil] at h
  simp [decode, h]

/-- Witness for C3's amended claim at a nested concrete value
exercising every modelled variant. -/
theorem decode_encode_roundtrip_witness :
    decode (encodeValue (.array [.i64 (-2), .text [104, 105], .bytes [0, 255],
        .bool true, .null, .u64 300]))
      = some (canonValue (.array [.i64 (-2), .text [104, 105], .bytes [0, 255],
          .bool true, .null, .u64 300]),
        (encodeValue (.array [.i64 (-2), .text [104, 105], .bytes [0, 255],
          .bool true, .null, .u64 300])).length) :=
  decode_encode_roundtrip
    (.array [.i64 (-2), .text [104, 105], .bytes [0, 255], .bool true, .null, .u64 300])
    (by decide)

end Uplog
